import Mathlib

/-!
Shallow embedding of the ReconModule repository (wayback.py, endpoint.py,
parameter.py) and proofs about the claims of its specification.

Strings are modelled as Lean `String` / `List Char`; Python semantics that the
scripts rely on (`str.split`, `str.strip`, `str.lower`, `str.replace`,
`str.startswith`, `str.endswith`, `sorted`, `set`, and the `urllib.parse`
functions `urlparse`/`parse_qs`/`unquote`) are embedded below as executable
Lean functions.  Python compares strings lexicographically by code point,
which coincides with the `LinearOrder String` instance used here.
-/

namespace Recon

/-! ## Generic Python string surrogates -/

/-- Python `s.split(c, 1)` viewed as: text before the first `c`, and
(if `c` occurs) the text after it. -/
def splitOnFirst (c : Char) : List Char → List Char × Option (List Char)
  | [] => ([], none)
  | x :: xs =>
    if x = c then ([], some xs)
    else
      let r := splitOnFirst c xs
      (x :: r.1, r.2)

/-- Python `s.split(c)` (no maxsplit): `"".split(c) = [""]`. -/
def pySplitAll (c : Char) : List Char → List (List Char)
  | [] => [[]]
  | x :: xs =>
    if x = c then [] :: pySplitAll c xs
    else
      match pySplitAll c xs with
      | s :: rest => (x :: s) :: rest
      | [] => [[x]]

/-- ASCII fragment of Python `str.isspace` characters (the URLs handled by the
scripts are ASCII; the exotic Unicode whitespace of Python is out of scope). -/
def isPySpace (c : Char) : Bool :=
  c == ' ' || c == '\t' || c == '\n' || c == '\r' || c.toNat == 11 || c.toNat == 12

/-- Python `s.strip()` on a character list. -/
def pyStrip (s : List Char) : List Char :=
  ((s.dropWhile isPySpace).reverse.dropWhile isPySpace).reverse

/-- Python `s.strip()` on a `String`. -/
def pyStripS (s : String) : String :=
  String.mk (pyStrip s.data)

/-- Code-point lexicographic comparison of character lists, the order Python
uses to compare strings (UTF-8 byte order coincides with it). -/
def lexLeB : List Char → List Char → Bool
  | [], _ => true
  | _ :: _, [] => false
  | a :: as, b :: bs =>
    if a < b then true else if b < a then false else lexLeB as bs

/-- Python string comparison `a <= b`. -/
def pyLe (a b : String) : Bool :=
  lexLeB a.data b.data

/-- Python `sorted` on strings (code-point lexicographic order). -/
def pySorted (xs : List String) : List String :=
  List.insertionSort (fun a b => pyLe a b = true) xs

/-- Python `sorted(list(set(xs)))`. -/
def pySortedSet (xs : List String) : List String :=
  pySorted xs.dedup

/-! ## wayback.py -/

/-- Python `url.split('?')[0].split('#')[0]` (wayback.py, both classifiers). -/
def stripQueryFrag (url : List Char) : List Char :=
  (splitOnFirst '#' (splitOnFirst '?' url).1).1

/-- The extension list of `has_file_extension` (wayback.py lines 17-22). -/
def file_extensions : List String :=
  [".pdf", ".doc", ".docx", ".xls", ".xlsx", ".ppt", ".pptx", ".txt", ".xml",
   ".json", ".csv", ".zip", ".rar", ".tar", ".gz", ".7z", ".mp3", ".mp4",
   ".avi", ".mov", ".wmv", ".flv", ".swf", ".php", ".asp", ".aspx", ".jsp",
   ".cfm", ".pl", ".py", ".rb", ".sql", ".db", ".bak", ".backup", ".old",
   ".tmp", ".log", ".conf", ".cfg", ".ini", ".yaml", ".yml", ".properties",
   ".js", ".exe", ".html"]

/-- wayback.py `has_file_extension`: suffix test on the lowercased path with
query string and fragment removed. `Char.toLower` matches Python `str.lower`
on the ASCII extensions being compared. -/
def has_file_extension (url : String) : Bool :=
  let p := (stripQueryFrag url.data).map Char.toLower
  file_extensions.any (fun e => e.data.isSuffixOf p)

/-- The extension list of `is_static_resource` (wayback.py lines 32-35). -/
def static_extensions : List String :=
  [".png", ".jpg", ".jpeg", ".gif", ".bmp", ".tiff", ".tif", ".svg", ".webp",
   ".ico", ".css", ".scss", ".sass", ".less", ".woff", ".woff2", ".ttf",
   ".otf", ".eot", ".map", ".min.js", ".min.css"]

/-- wayback.py `is_static_resource`. -/
def is_static_resource (url : String) : Bool :=
  let p := (stripQueryFrag url.data).map Char.toLower
  static_extensions.any (fun e => e.data.isSuffixOf p)

/-- The extension list of the bucket-assignment loop inside
`collect_wayback_urls` (wayback.py lines 81-86).  Note that it lacks the
`.exe` and `.html` entries of `file_extensions`. -/
def bucket_extensions : List String :=
  [".pdf", ".doc", ".docx", ".xls", ".xlsx", ".ppt", ".pptx", ".txt", ".xml",
   ".json", ".csv", ".zip", ".rar", ".tar", ".gz", ".7z", ".mp3", ".mp4",
   ".avi", ".mov", ".wmv", ".flv", ".swf", ".php", ".asp", ".aspx", ".jsp",
   ".cfm", ".pl", ".py", ".rb", ".sql", ".db", ".bak", ".backup", ".old",
   ".tmp", ".log", ".conf", ".cfg", ".ini", ".yaml", ".yml", ".properties",
   ".js"]

/-- The bucket extension chosen for a URL by `collect_wayback_urls`
(first match in `bucket_extensions` wins; the leading dot is removed). -/
def extensionOf (url : String) : Option String :=
  let p := (stripQueryFrag url.data).map Char.toLower
  (bucket_extensions.find? (fun e => e.data.isSuffixOf p)).map
    (fun e => String.mk (e.data.drop 1))

/-- The per-line filter of `collect_wayback_urls` (wayback.py line 66):
keep a trimmed line when it is non-empty, does not start with `original`,
and is not a static resource. -/
def surviveLine (line : String) : Bool :=
  line ≠ "" && !(List.isPrefixOf "original".data line.data)
    && !(is_static_resource line)

/-- wayback.py lines 64-67: trim each response line and filter. -/
def filteredUrls (lines : List String) : List String :=
  (lines.map pyStripS).filter surviveLine

/-- wayback.py line 70: `sorted(list(set(all_urls)))`; the content of
`wayback_urls.txt`. -/
def uniqueUrls (lines : List String) : List String :=
  pySortedSet (filteredUrls lines)

/-- wayback.py lines 76-96, `else` branch: the content of `wayback_url.txt`. -/
def regularUrls (lines : List String) : List String :=
  (uniqueUrls lines).filter (fun u => !(has_file_extension u))

/-- wayback.py lines 76-94: the content of the `<ext>.txt` bucket file.
A URL enters the bucket for `ext` when `has_file_extension` holds and the
bucket-assignment loop finds `ext` (first match in `bucket_extensions`). -/
def bucketUrls (lines : List String) (ext : String) : List String :=
  (uniqueUrls lines).filter
    (fun u => has_file_extension u && decide (extensionOf u = some ext))

/-! ## urllib.parse model

Model of the CPython `urllib.parse` functions the scripts call:
`urlsplit`/`urlparse` (scheme, netloc, path, params, query, fragment),
`parse_qs` (only key sets are consumed downstream) and `unquote`
(percent-decoding with UTF-8 `errors='replace'`). -/

/-- Characters allowed in a URL scheme (letters, digits, `+`, `-`, `.`). -/
def isSchemeChar (c : Char) : Bool :=
  c.isAlpha || c.isDigit || c == '+' || c == '-' || c == '.'

/-- Characters ending the netloc portion in `urlsplit`. -/
def isNetlocEnd (c : Char) : Bool :=
  c == '/' || c == '?' || c == '#'

structure UrlSplitResult where
  scheme : List Char
  netloc : List Char
  path : List Char
  query : List Char
  fragment : List Char

/-- The non-ASCII characters whose NFKC normalization contains one of
`/`, `?`, `#`, `@`, `:` (enumerated from the Unicode 14.0 data CPython 3.11
consults): U+2047-U+2049 (double punctuation with `?`), U+2100 `℀`,
U+2101 `℁`, U+2105 `℅`, U+2106 `℆` (letterlike fractions with `/`),
U+2A74 (double colon equal), U+FE13, U+FE16, U+FE55, U+FE56, U+FE5F,
U+FE6B (small/vertical forms), and U+FF03, U+FF0F, U+FF1A, U+FF1F, U+FF20
(fullwidth forms).  `_checknetloc` raises exactly when one of these remains
in the netloc after stripping `@:#?`: compatibility decomposition is
per-character and canonical composition only outputs characters that have a
canonical decomposition (never an ASCII delimiter), so the NFKC image of a
netloc contains a delimiter precisely when one of its characters does. -/
def nfkcUnsafeNetlocChars : List Char :=
  [Char.ofNat 0x2047, Char.ofNat 0x2048, Char.ofNat 0x2049, Char.ofNat 0x2100,
   Char.ofNat 0x2101, Char.ofNat 0x2105, Char.ofNat 0x2106, Char.ofNat 0x2A74,
   Char.ofNat 0xFE13, Char.ofNat 0xFE16, Char.ofNat 0xFE55, Char.ofNat 0xFE56,
   Char.ofNat 0xFE5F, Char.ofNat 0xFE6B, Char.ofNat 0xFF03, Char.ofNat 0xFF0F,
   Char.ofNat 0xFF1A, Char.ofNat 0xFF1F, Char.ofNat 0xFF20]

/-- Model of `urllib.parse._checknetloc`: `true` when it raises
`ValueError`.  An empty or all-ASCII netloc passes immediately; otherwise
the characters `@`, `:`, `#`, `?` are ignored and the check fails when the
NFKC normalization of the rest would contain a URL delimiter, i.e. when a
character of `nfkcUnsafeNetlocChars` remains. -/
def checknetlocFails (netloc : List Char) : Bool :=
  if netloc.isEmpty || netloc.all (fun c => decide (c.toNat ≤ 127)) then false
  else
    (netloc.filter (fun c => !(c == '@' || c == ':' || c == '#' || c == '?'))).any
      (fun c => nfkcUnsafeNetlocChars.contains c)

/-- Model of `urllib.parse.urlsplit` (CPython 3.11, `allow_fragments=True`):
left-strip C0-control/space characters, remove tab/CR/LF, split off a valid
scheme at the first colon, read the netloc after `//` up to `/?#`, raise
`ValueError` on mismatched square brackets in the netloc (modelled as
`Except.error`; the finer bracketed-host validation is only invoked by
CPython when the netloc contains both brackets, a case excluded here), then
split fragment at the first `#` and query at the first `?`, and finally run
the `_checknetloc` NFKC validation of the netloc, which also raises
`ValueError` when it fails. -/
def urlsplit (url0 : List Char) : Except Unit UrlSplitResult :=
  let url1 := url0.dropWhile (fun c => decide (c.toNat ≤ 32))
  let url2 := url1.filter (fun c => !(c == '\t' || c == '\r' || c == '\n'))
  let su : List Char × List Char :=
    match splitOnFirst ':' url2 with
    | (before, some after) =>
      if before ≠ [] ∧ (before.headD ' ').isAlpha = true ∧ before.all isSchemeChar = true
      then (before.map Char.toLower, after)
      else ([], url2)
    | (_, none) => ([], url2)
  let u3 := su.2
  let nu : List Char × List Char :=
    if u3.take 2 = ['/', '/'] then
      ((u3.drop 2).takeWhile (fun c => !(isNetlocEnd c)),
       (u3.drop 2).dropWhile (fun c => !(isNetlocEnd c)))
    else ([], u3)
  if ('[' ∈ nu.1 ∧ ']' ∉ nu.1) ∨ (']' ∈ nu.1 ∧ '[' ∉ nu.1) then .error ()
  else
    let fs := splitOnFirst '#' nu.2
    let qsp := splitOnFirst '?' fs.1
    if checknetlocFails nu.1 then .error ()
    else .ok ⟨su.1, nu.1, qsp.1, (qsp.2).getD [], (fs.2).getD []⟩

/-- Model of `urllib.parse._splitparams`: split the `;params` suffix of the
last path segment (only called when the path contains a semicolon). -/
def splitparams (p : List Char) : List Char × List Char :=
  if '/' ∈ p then
    match splitOnFirst '/' p.reverse with
    | (revSeg, rest) =>
      match splitOnFirst ';' revSeg.reverse with
      | (_, none) => (p, [])
      | (b4, some after) => ((rest.getD []).reverse ++ '/' :: b4, after)
  else
    match splitOnFirst ';' p with
    | (b4, some after) => (b4, after)
    | (_, none) => (p, [])

structure UrlParseResult where
  scheme : List Char
  netloc : List Char
  path : List Char
  params : List Char
  query : List Char
  fragment : List Char

/-- Model of `urllib.parse.urlparse`. -/
def urlparse (url : List Char) : Except Unit UrlParseResult :=
  match urlsplit url with
  | .error e => .error e
  | .ok r =>
    let pp := if ';' ∈ r.path then splitparams r.path else (r.path, [])
    .ok ⟨r.scheme, r.netloc, pp.1, pp.2, r.query, r.fragment⟩

/-- Hexadecimal digit value, as accepted by percent-escapes. -/
def hexVal (c : Char) : Option Nat :=
  if 48 ≤ c.toNat ∧ c.toNat ≤ 57 then some (c.toNat - 48)
  else if 97 ≤ c.toNat ∧ c.toNat ≤ 102 then some (c.toNat - 87)
  else if 65 ≤ c.toNat ∧ c.toNat ≤ 70 then some (c.toNat - 55)
  else none

/-- First pass of `unquote`: turn each `%XX` escape into a byte
(`Sum.inl`), leave every other character alone (`Sum.inl` runs are decoded
as UTF-8 afterwards, exactly like `unquote_to_bytes` + `bytes.decode`). -/
def pctTokens : List Char → List (Sum Nat Char)
  | '%' :: a :: b :: rest =>
    match hexVal a, hexVal b with
    | some ha, some hb => Sum.inl (ha * 16 + hb) :: pctTokens rest
    | _, _ => Sum.inr '%' :: pctTokens (a :: b :: rest)
  | c :: rest => Sum.inr c :: pctTokens rest
  | [] => []

/-- Lower bound of the second byte of a UTF-8 sequence for a given lead. -/
def contLo (lead : Nat) : Nat :=
  if lead = 0xE0 then 0xA0 else if lead = 0xF0 then 0x90 else 0x80

/-- Upper bound of the second byte of a UTF-8 sequence for a given lead. -/
def contHi (lead : Nat) : Nat :=
  if lead = 0xED then 0x9F else if lead = 0xF4 then 0x8F else 0xBF

/-- UTF-8 decoding with `errors='replace'` (CPython replaces each maximal
valid subpart of an ill-formed sequence with one U+FFFD).  The fuel argument
(always instantiated with the length of the byte list, which bounds the
recursion depth) keeps the recursion structural. -/
def utf8DecodeAux : Nat → List Nat → List Char
  | 0, _ => []
  | _, [] => []
  | fuel + 1, b :: rest =>
    if b ≤ 0x7F then Char.ofNat b :: utf8DecodeAux fuel rest
    else if 0xC2 ≤ b ∧ b ≤ 0xDF then
      match rest with
      | [] => [Char.ofNat 0xFFFD]
      | b2 :: r2 =>
        if 0x80 ≤ b2 ∧ b2 ≤ 0xBF then
          Char.ofNat ((b - 0xC0) * 64 + (b2 - 0x80)) :: utf8DecodeAux fuel r2
        else Char.ofNat 0xFFFD :: utf8DecodeAux fuel (b2 :: r2)
    else if 0xE0 ≤ b ∧ b ≤ 0xEF then
      match rest with
      | [] => [Char.ofNat 0xFFFD]
      | b2 :: r2 =>
        if contLo b ≤ b2 ∧ b2 ≤ contHi b then
          match r2 with
          | [] => [Char.ofNat 0xFFFD]
          | b3 :: r3 =>
            if 0x80 ≤ b3 ∧ b3 ≤ 0xBF then
              Char.ofNat ((b - 0xE0) * 4096 + (b2 - 0x80) * 64 + (b3 - 0x80))
                :: utf8DecodeAux fuel r3
            else Char.ofNat 0xFFFD :: utf8DecodeAux fuel (b3 :: r3)
        else Char.ofNat 0xFFFD :: utf8DecodeAux fuel (b2 :: r2)
    else if 0xF0 ≤ b ∧ b ≤ 0xF4 then
      match rest with
      | [] => [Char.ofNat 0xFFFD]
      | b2 :: r2 =>
        if contLo b ≤ b2 ∧ b2 ≤ contHi b then
          match r2 with
          | [] => [Char.ofNat 0xFFFD]
          | b3 :: r3 =>
            if 0x80 ≤ b3 ∧ b3 ≤ 0xBF then
              match r3 with
              | [] => [Char.ofNat 0xFFFD]
              | b4 :: r4 =>
                if 0x80 ≤ b4 ∧ b4 ≤ 0xBF then
                  Char.ofNat ((b - 0xF0) * 262144 + (b2 - 0x80) * 4096
                      + (b3 - 0x80) * 64 + (b4 - 0x80)) :: utf8DecodeAux fuel r4
                else Char.ofNat 0xFFFD :: utf8DecodeAux fuel (b4 :: r4)
            else Char.ofNat 0xFFFD :: utf8DecodeAux fuel (b3 :: r3)
        else Char.ofNat 0xFFFD :: utf8DecodeAux fuel (b2 :: r2)
    else Char.ofNat 0xFFFD :: utf8DecodeAux fuel rest
/-- UTF-8 decoding of a byte list with `errors='replace'`. -/
def utf8Decode (bs : List Nat) : List Char :=
  utf8DecodeAux bs.length bs

/-- Second pass of `unquote`: decode maximal byte runs as UTF-8. -/
def decodeTokensAux : List (Sum Nat Char) → List Nat → List Char
  | [], acc => utf8Decode acc.reverse
  | Sum.inl b :: rest, acc => decodeTokensAux rest (b :: acc)
  | Sum.inr c :: rest, acc => utf8Decode acc.reverse ++ c :: decodeTokensAux rest []

/-- Model of `urllib.parse.unquote` with `encoding='utf-8'`,
`errors='replace'`. -/
def unquote (s : List Char) : List Char :=
  decodeTokensAux (pctTokens s) []

/-- `parse_qsl` name/value decoding: `.replace('+', ' ')` then `unquote`. -/
def qsDecode (s : List Char) : List Char :=
  unquote (s.map (fun c => if c = '+' then ' ' else c))

/-- The raw name/value pairs `parse_qsl` keeps (defaults:
`keep_blank_values=False`, `strict_parsing=False`, `separator='&'`):
empty chunks are skipped, chunks without `=` are skipped, and pairs whose
raw value is empty are skipped. -/
def rawQsPairs (qs : List Char) : List (List Char × List Char) :=
  (pySplitAll '&' qs).filterMap (fun nv =>
    if nv = [] then none
    else
      match splitOnFirst '=' nv with
      | (_, none) => none
      | (n, some v) => if v = [] then none else some (n, v))

/-- Model of `urllib.parse.parse_qsl` with default arguments. -/
def parse_qsl (qs : List Char) : List (List Char × List Char) :=
  (rawQsPairs qs).map (fun p => (qsDecode p.1, qsDecode p.2))

/-! ## parameter.py -/

/-- Python `pat in s` on strings: `pat` occurs as a contiguous substring. -/
def containsSeq (pat : List Char) : List Char → Bool
  | [] => pat.isEmpty
  | c :: rest => List.isPrefixOf pat (c :: rest) || containsSeq pat rest

/-- parameter.py line 31: names containing an embedded URL or invalid
character are dropped (`http`, `https`, `/`, `\`, space). -/
def forbiddenName (s : List Char) : Bool :=
  containsSeq "http".data s || containsSeq "https".data s
    || containsSeq "/".data s || containsSeq "\\".data s
    || containsSeq " ".data s

/-- parameter.py line 35: names starting with an HTML entity remnant. -/
def entityRemnant (s : List Char) : Bool :=
  List.isPrefixOf "amp;".data s || List.isPrefixOf "nbsp;".data s
    || List.isPrefixOf "gt;".data s || List.isPrefixOf "lt;".data s

/-- parameter.py line 15: `url.replace('&amp;', '&')` (left-to-right,
non-overlapping). -/
def replaceAmp : List Char → List Char
  | '&' :: 'a' :: 'm' :: 'p' :: ';' :: rest => '&' :: replaceAmp rest
  | c :: rest => c :: replaceAmp rest
  | [] => []

/-- parameter.py `extract_parameters`.  The Python `set` of clean names is
modelled as a duplicate-free list; only membership is consumed downstream
(the dict keys of `parse_qs` are the distinct decoded pair names). -/
def extract_parameters (url : String) : List String :=
  match urlparse (replaceAmp url.data) with
  | .error _ => []
  | .ok r =>
    let keys := ((parse_qsl r.query).map Prod.fst).dedup
    (keys.filterMap (fun k =>
      let clean := pyStrip k
      if clean = [] then none
      else if forbiddenName clean then none
      else if entityRemnant clean then none
      else some (String.mk clean))).dedup

/-- parameter.py `process_domain_parameters`, pure part: union the per-URL
name sets over the non-blank lines of wayback_urls.txt, drop names that are
blank after stripping, and sort.  These are the names written to
parameters.txt. -/
def processParameters (lines : List String) : List String :=
  let collected := List.flatten (lines.map (fun l =>
    let u := pyStripS l
    if u = "" then [] else extract_parameters u))
  pySorted (collected.dedup.filter (fun p => pyStripS p ≠ ""))

/-- parameter.py line 75: each line of parameters.txt is a name with a
trailing `=` appended. -/
def parametersFileLines (lines : List String) : List String :=
  (processParameters lines).map (fun p => p ++ "=")

/-! ## endpoint.py -/

/-- endpoint.py `extract_endpoint`: netloc plus first non-empty path
segment (query/fragment/params excluded by `urlparse`); `None` on a parse
error. -/
def extract_endpoint (url : String) : Option String :=
  match urlparse url.data with
  | .error _ => none
  | .ok r =>
    let pathParts := (pySplitAll '/' r.path).filter (fun s => s ≠ [])
    let firstLevel : List Char :=
      match pathParts with
      | p1 :: _ => '/' :: (p1 ++ ['/'])
      | [] => ['/']
    some (String.mk (r.netloc ++ firstLevel))

/-- endpoint.py `process_domain_endpoints`, pure part: the sorted set of
endpoints of the non-blank lines of wayback_urls.txt (a falsy — `None` or
empty — endpoint is not added).  These are the lines of endpoints.txt. -/
def processEndpoints (lines : List String) : List String :=
  pySortedSet (lines.filterMap (fun l =>
    let u := pyStripS l
    if u = "" then none
    else
      match extract_endpoint u with
      | some e => if e = "" then none else some e
      | none => none))

/-! ## Driver models -/

/-- Python exception classes relevant to wayback.py's `try` block. -/
inductive PyErr
  | requestErr
  | osErr
deriving DecidableEq

/-- wayback.py `collect_wayback_urls` control flow: the body fetches
(`requests.get` + `raise_for_status`, any failure raising
`RequestException`), computes the pure classification, then creates the
output directory and writes the output files (failures raising `OSError`).
The `except` clause catches only `RequestException` (printing and returning
count 0); any other exception propagates to the caller. -/
def collectRun (fetch : Except Unit (List String)) (mkdirOk writeOk : Bool) :
    Except PyErr Nat :=
  let body : Except PyErr Nat :=
    match fetch with
    | .error _ => .error .requestErr
    | .ok lines =>
      if !mkdirOk then .error .osErr
      else if !writeOk then .error .osErr
      else .ok (uniqueUrls lines).length
  match body with
  | .error .requestErr => .ok 0
  | .error .osErr => .error .osErr
  | .ok n => .ok n

/-- wayback.py `main` loop (lines 158-166): process domains in order; an
uncaught exception from `collect_wayback_urls` aborts the whole loop.  Each
domain is summarised by its fetch outcome and the success of its directory
creation and file writes; the result collects the per-domain counts. -/
def waybackProcessAll :
    List (Except Unit (List String) × Bool × Bool) → Except PyErr (List Nat)
  | [] => .ok []
  | (fetch, mkdirOk, writeOk) :: rest =>
    match collectRun fetch mkdirOk writeOk with
    | .error e => .error e
    | .ok n => (waybackProcessAll rest).map (fun l => n :: l)

/-- The argument/input-file handling shared verbatim by the three `main`
functions (wayback.py 135-156, endpoint.py 77-99, parameter.py 85-107):
exit 1 when the argument count is wrong, the domain file is unreadable, or
no non-blank domain line remains; otherwise the domain loop runs (its
per-domain outcomes never change the exit code in endpoint.py/parameter.py,
which catch all per-domain exceptions) and the process exits 0. -/
def mainExitCode (argvLen : Nat) (file : Except Unit (List String)) : Nat :=
  if argvLen ≠ 2 then 1
  else
    match file with
    | .error _ => 1
    | .ok lines =>
      if ((lines.map pyStripS).filter (fun d => d ≠ "")) = [] then 1 else 0

/-- Per-domain slice of the output directory, for the rerun claims:
content of wayback_urls.txt (if present), endpoints.txt and parameters.txt. -/
structure DomainState where
  waybackUrls : Option (List String)
  endpointsFile : Option (List String)
  parametersFile : Option (List String)

/-- One run of endpoint.py over a domain directory: if wayback_urls.txt is
missing nothing is written; otherwise endpoints.txt is (re)written with the
extracted sorted endpoint set. -/
def runEndpointExtraction (d : DomainState) : DomainState :=
  match d.waybackUrls with
  | none => d
  | some ls => DomainState.mk d.waybackUrls (some (processEndpoints ls)) d.parametersFile

/-- One run of parameter.py over a domain directory. -/
def runParameterExtraction (d : DomainState) : DomainState :=
  match d.waybackUrls with
  | none => d
  | some ls => DomainState.mk d.waybackUrls d.endpointsFile (some (parametersFileLines ls))

/-! ## Statement-side definitions for the endpoint claim -/

/-- A URL with scheme `http`, the given host, path, and optional query and
fragment parts. -/
def urlOf (host p : String) (q f : Option String) : String :=
  "http://" ++ host ++ p
    ++ (match q with | some s => "?" ++ s | none => "")
    ++ (match f with | some s => "#" ++ s | none => "")

/-- Endpoint formation as the specification words it: split the path on
slashes, discard empty segments; the endpoint is host plus first segment
plus trailing slash, or host plus a lone slash when no segment exists. -/
def specEndpoint (host p : String) : String :=
  match (pySplitAll '/' p.data).filter (fun s => s ≠ []) with
  | s :: _ => host ++ "/" ++ String.mk s ++ "/"
  | [] => host ++ "/"

/-- Hosts considered by the endpoint claim: no netloc delimiter, no square
bracket, no character removed by `urlsplit`, and no character rejected by
the NFKC netloc validation. -/
def hostCharOk (c : Char) : Bool :=
  !(c == '/' || c == '?' || c == '#' || c == '[' || c == ']'
    || c == '\t' || c == '\r' || c == '\n')
    && !(nfkcUnsafeNetlocChars.contains c)

/-- Path characters considered by the endpoint claim. -/
def pathCharOk (c : Char) : Bool :=
  !(c == '?' || c == '#' || c == ';' || c == '\t' || c == '\r' || c == '\n')

/-- Query characters considered by the endpoint claim. -/
def queryCharOk (c : Char) : Bool :=
  !(c == '#' || c == '\t' || c == '\r' || c == '\n')

/-- Fragment characters considered by the endpoint claim. -/
def fragCharOk (c : Char) : Bool :=
  !(c == '\t' || c == '\r' || c == '\n')

/-! ## Order lemmas: `pyLe` is the lexicographic string order -/

theorem lexLeB_iff (as : List Char) :
    ∀ bs, lexLeB as bs = true ↔ ¬ List.Lex (· < ·) bs as := by
  induction as with
  | nil =>
    intro bs
    simp [lexLeB]
  | cons a as ih =>
    intro bs
    cases bs with
    | nil =>
      simp [lexLeB, List.Lex.nil]
    | cons b bs =>
      simp only [lexLeB]
      rcases lt_trichotomy a b with hab | hab | hab
      · rw [if_pos hab]
        constructor
        · intro _ hlex
          cases hlex with
          | cons h2 => exact absurd hab (lt_irrefl _)
          | rel h2 => exact absurd hab (asymm h2)
        · intro _
          rfl
      · subst hab
        rw [if_neg (lt_irrefl a), if_neg (lt_irrefl a)]
        rw [ih bs]
        exact (Iff.not List.Lex.cons_iff).symm
      · rw [if_neg (asymm hab), if_pos hab]
        constructor
        · intro hfalse
          exact absurd hfalse (by simp)
        · intro hn
          exact absurd (List.Lex.rel hab) hn

theorem pyLe_iff (a b : String) : pyLe a b = true ↔ a ≤ b := by
  rw [pyLe, lexLeB_iff, String.le_iff_toList_le]
  exact ((@not_lt (List Char) _ b.toList a.toList).symm).symm

instance : IsTrans String (fun a b => pyLe a b = true) :=
  ⟨fun _ _ _ hab hbc =>
    (pyLe_iff _ _).mpr (le_trans ((pyLe_iff _ _).mp hab) ((pyLe_iff _ _).mp hbc))⟩

instance : IsTotal String (fun a b => pyLe a b = true) :=
  ⟨fun a b => (le_total a b).imp (pyLe_iff _ _).mpr (pyLe_iff _ _).mpr⟩

theorem pySorted_sorted (xs : List String) :
    List.Sorted (· ≤ ·) (pySorted xs) :=
  (List.sorted_insertionSort (fun a b => pyLe a b = true) xs).imp
    (fun hx => (pyLe_iff _ _).mp hx)

theorem pySorted_perm (xs : List String) : (pySorted xs).Perm xs :=
  List.perm_insertionSort _ xs

theorem pySortedSet_sorted (xs : List String) :
    List.Sorted (· ≤ ·) (pySortedSet xs) :=
  pySorted_sorted _

theorem pySortedSet_nodup (xs : List String) : (pySortedSet xs).Nodup :=
  ((pySorted_perm xs.dedup).nodup_iff).mpr (List.nodup_dedup xs)

theorem mem_pySortedSet {a : String} {xs : List String} :
    a ∈ pySortedSet xs ↔ a ∈ xs := by
  rw [pySortedSet, (pySorted_perm xs.dedup).mem_iff, List.mem_dedup]

/-! ## Pipeline membership lemmas -/

theorem surviveLine_true_iff (l : String) :
    surviveLine l = true ↔
      l ≠ "" ∧ List.isPrefixOf "original".data l.data = false
        ∧ is_static_resource l = false := by
  simp [surviveLine, Bool.and_eq_true, Bool.not_eq_true', decide_eq_true_eq,
    and_assoc]

theorem mem_filteredUrls {lines : List String} {l : String} :
    l ∈ filteredUrls lines ↔
      (∃ raw ∈ lines, pyStripS raw = l) ∧ l ≠ ""
        ∧ List.isPrefixOf "original".data l.data = false
        ∧ is_static_resource l = false := by
  rw [filteredUrls, List.mem_filter, List.mem_map, surviveLine_true_iff]

theorem mem_uniqueUrls {lines : List String} {u : String} :
    u ∈ uniqueUrls lines ↔ u ∈ filteredUrls lines := by
  rw [uniqueUrls, mem_pySortedSet]

theorem uniqueUrls_nonstatic {lines : List String} {u : String}
    (hu : u ∈ uniqueUrls lines) : is_static_resource u = false :=
  ((mem_filteredUrls.mp (mem_uniqueUrls.mp hu)).2.2.2)

theorem splitOnFirst_not_mem (c : Char) (s : List Char) (h : c ∉ s) :
    splitOnFirst c s = (s, none) := by
  induction s with
  | nil => rfl
  | cons x xs ih =>
    have hx : ¬ x = c := fun he => h (he ▸ List.mem_cons_self x xs)
    have ih2 := ih (fun hc => h (List.mem_cons_of_mem _ hc))
    simp only [splitOnFirst, if_neg hx, ih2]

theorem splitOnFirst_append (c : Char) (a b : List Char) (ha : c ∉ a) :
    splitOnFirst c (a ++ c :: b) = (a, some b) := by
  induction a with
  | nil => simp [splitOnFirst]
  | cons x xs ih =>
    have hx : ¬ x = c := fun he => ha (he ▸ List.mem_cons_self x xs)
    have ih2 := ih (fun hc => ha (List.mem_cons_of_mem _ hc))
    simp only [List.cons_append, splitOnFirst, if_neg hx, List.append_eq, ih2]

theorem takeWhile_all (p : Char → Bool) (a : List Char)
    (h : ∀ x ∈ a, p x = true) : a.takeWhile p = a := by
  induction a with
  | nil => rfl
  | cons x xs ih =>
    rw [List.takeWhile_cons, if_pos (h x (List.mem_cons_self x xs)),
      ih (fun y hy => h y (List.mem_cons_of_mem _ hy))]

theorem dropWhile_all (p : Char → Bool) (a : List Char)
    (h : ∀ x ∈ a, p x = true) : a.dropWhile p = [] := by
  induction a with
  | nil => rfl
  | cons x xs ih =>
    rw [List.dropWhile_cons, if_pos (h x (List.mem_cons_self x xs)),
      ih (fun y hy => h y (List.mem_cons_of_mem _ hy))]

theorem takeWhile_append_all (p : Char → Bool) (a b : List Char)
    (h : ∀ x ∈ a, p x = true) :
    (a ++ b).takeWhile p = a ++ b.takeWhile p := by
  rw [List.takeWhile_append, takeWhile_all p a h, if_pos rfl]

theorem dropWhile_append_all (p : Char → Bool) (a b : List Char)
    (h : ∀ x ∈ a, p x = true) :
    (a ++ b).dropWhile p = b.dropWhile p := by
  rw [List.dropWhile_append, dropWhile_all p a h]
  rfl

theorem hostCharOk_frag (c : Char) (h : hostCharOk c = true) :
    fragCharOk c = true := by
  revert h
  simp only [hostCharOk, fragCharOk, Bool.and_eq_true, Bool.not_eq_true',
    Bool.or_eq_false_iff]
  tauto

theorem pathCharOk_frag (c : Char) (h : pathCharOk c = true) :
    fragCharOk c = true := by
  revert h
  simp only [pathCharOk, fragCharOk, Bool.not_eq_true', Bool.or_eq_false_iff]
  tauto

theorem queryCharOk_frag (c : Char) (h : queryCharOk c = true) :
    fragCharOk c = true := by
  revert h
  simp only [queryCharOk, fragCharOk, Bool.not_eq_true', Bool.or_eq_false_iff]
  tauto

theorem hostCharOk_netloc (c : Char) (h : hostCharOk c = true) :
    (!(isNetlocEnd c)) = true := by
  revert h
  simp only [hostCharOk, isNetlocEnd, Bool.and_eq_true, Bool.not_eq_true',
    Bool.or_eq_false_iff]
  tauto

theorem hostCharOk_props (c : Char) (h : hostCharOk c = true) :
    c ≠ '[' ∧ c ≠ ']' := by
  revert h
  simp only [hostCharOk, Bool.and_eq_true, Bool.not_eq_true',
    Bool.or_eq_false_iff, beq_eq_false_iff_ne]
  tauto

theorem hostCharOk_nfkc (c : Char) (h : hostCharOk c = true) :
    nfkcUnsafeNetlocChars.contains c = false := by
  revert h
  simp only [hostCharOk, Bool.and_eq_true, Bool.not_eq_true']
  tauto

theorem pathCharOk_props (c : Char) (h : pathCharOk c = true) :
    c ≠ '?' ∧ c ≠ '#' ∧ c ≠ ';' := by
  revert h
  simp only [pathCharOk, Bool.not_eq_true', Bool.or_eq_false_iff, beq_eq_false_iff_ne]
  tauto

theorem queryCharOk_props (c : Char) (h : queryCharOk c = true) :
    c ≠ '#' := by
  revert h
  simp only [queryCharOk, Bool.not_eq_true', Bool.or_eq_false_iff, beq_eq_false_iff_ne]
  tauto

theorem appendEq_injective : Function.Injective (fun p : String => p ++ "=") := by
  intro a b h
  simp only at h
  have hd := congrArg String.data h
  rw [String.data_append, String.data_append] at hd
  exact String.ext (List.append_cancel_right hd)

/-! ## Claim C1 -/

/-- C1 (code-bug evidence): `has_file_extension` classifies
`http://x.com/index.html` as a file (its list contains `.html`), but the
bucket-assignment loop of `collect_wayback_urls` duplicates that list without
the `.html` and `.exe` entries, so the URL reaches the file branch, matches
no bucket extension, and lands neither in the Regular list (wayback_url.txt)
nor in any extension bucket, even though it is in the deduped set
(wayback_urls.txt): the partition is not total, contradicting the claim. -/
theorem html_url_dropped_from_partition :
    has_file_extension "http://x.com/index.html" = true ∧
    is_static_resource "http://x.com/index.html" = false ∧
    extensionOf "http://x.com/index.html" = none ∧
    uniqueUrls ["http://x.com/index.html"] = ["http://x.com/index.html"] ∧
    regularUrls ["http://x.com/index.html"] = [] ∧
    ∀ ext : String, "http://x.com/index.html" ∉ bucketUrls ["http://x.com/index.html"] ext := by
  refine ⟨by decide, by decide, by decide, by decide, by decide, ?_⟩
  intro ext hmem
  have h2 := (List.mem_filter.mp hmem).2
  rw [Bool.and_eq_true] at h2
  have h3 := of_decide_eq_true h2.2
  rw [show extensionOf "http://x.com/index.html" = none from by decide] at h3
  exact Option.noConfusion h3

/-! ## Claim C2 -/

/-- C2: a URL whose stripped path ends case-insensitively in a static
extension is excluded from the deduped set, from the Regular list and from
every extension bucket; moreover every member of the deduped set (the input
to endpoint/parameter extraction) is non-static, so the derived sets are
computed from non-static survivors only. -/
theorem static_urls_excluded (lines : List String) (url : String)
    (h : is_static_resource url = true) :
    url ∉ uniqueUrls lines ∧ url ∉ regularUrls lines ∧
    (∀ ext, url ∉ bucketUrls lines ext) ∧
    (∀ u ∈ uniqueUrls lines, is_static_resource u = false) ∧
    processEndpoints (uniqueUrls lines)
      = processEndpoints
          ((uniqueUrls lines).filter (fun u => !(is_static_resource u))) ∧
    processParameters (uniqueUrls lines)
      = processParameters
          ((uniqueUrls lines).filter (fun u => !(is_static_resource u))) := by
  have hfilter :
      (uniqueUrls lines).filter (fun u => !(is_static_resource u))
        = uniqueUrls lines :=
    List.filter_eq_self.mpr (fun u hu => by
      rw [Bool.not_eq_true', uniqueUrls_nonstatic hu])
  refine ⟨?_, ?_, ?_, fun u hu => uniqueUrls_nonstatic hu,
    by rw [hfilter], by rw [hfilter]⟩
  · intro hu
    rw [uniqueUrls_nonstatic hu] at h
    exact Bool.noConfusion h
  · intro hu
    rw [uniqueUrls_nonstatic (List.mem_filter.mp hu).1] at h
    exact Bool.noConfusion h
  · intro ext hu
    rw [uniqueUrls_nonstatic (List.mem_filter.mp hu).1] at h
    exact Bool.noConfusion h

/-- C2 witness at the concrete static URL `http://x.com/a.PNG`. -/
theorem static_urls_excluded_witness :
    is_static_resource "http://x.com/a.PNG" = true ∧
    ("http://x.com/a.PNG" ∉ uniqueUrls ["http://x.com/a.PNG", "http://x.com/b"] ∧
     "http://x.com/a.PNG" ∉ regularUrls ["http://x.com/a.PNG", "http://x.com/b"] ∧
     (∀ ext, "http://x.com/a.PNG"
        ∉ bucketUrls ["http://x.com/a.PNG", "http://x.com/b"] ext) ∧
     (∀ u ∈ uniqueUrls ["http://x.com/a.PNG", "http://x.com/b"],
        is_static_resource u = false) ∧
     processEndpoints (uniqueUrls ["http://x.com/a.PNG", "http://x.com/b"])
       = processEndpoints
           ((uniqueUrls ["http://x.com/a.PNG", "http://x.com/b"]).filter
             (fun u => !(is_static_resource u))) ∧
     processParameters (uniqueUrls ["http://x.com/a.PNG", "http://x.com/b"])
       = processParameters
           ((uniqueUrls ["http://x.com/a.PNG", "http://x.com/b"]).filter
             (fun u => !(is_static_resource u)))) :=
  ⟨by decide,
   static_urls_excluded ["http://x.com/a.PNG", "http://x.com/b"]
     "http://x.com/a.PNG" (by decide)⟩

/-! ## Claim C3 -/

/-- C3 fails on the code: the name-level filter inspects only the parameter
name, `redir` contains none of the forbidden substrings, so it survives and
the result is not the set containing `ok` alone. -/
theorem redir_name_survives :
    "redir" ∈ extract_parameters "http://x.com/?redir=http://evil.com&ok=1" ∧
    ("redir" : String) ≠ "ok" := by decide

/-- C3 (amended): on this input `extract_parameters` returns exactly the
names `redir` and `ok`. -/
theorem extract_parameters_redir_ok :
    extract_parameters "http://x.com/?redir=http://evil.com&ok=1"
      = ["redir", "ok"] := by decide

/-! ## Claim C4 -/

/-- C4 fails on parameters.txt: the parameter names `x` and `x!` sort as
`x`, `x!`, and the written lines `x=`, `x!=` are not in ascending byte
order (`=` sorts after `!`). -/
theorem parametersFile_not_sorted :
    parametersFileLines ["http://x.com/?x=1", "http://x.com/?x!=1"]
      = ["x=", "x!="] ∧
    ¬ List.Sorted (· ≤ ·) (["x=", "x!="] : List String) := by
  constructor
  · decide
  · intro hs
    have h1 : ("x=" : String) ≤ "x!=" :=
      (List.sorted_cons.mp hs).1 _ (by simp)
    have h2 := (pyLe_iff "x=" "x!=").mpr h1
    rw [show pyLe "x=" "x!=" = false from by decide] at h2
    exact Bool.noConfusion h2

/-- C4 (amended): every output list is duplicate-free; the lines of
wayback_urls.txt, wayback_url.txt, every extension bucket file and
endpoints.txt are sorted ascending; the lines of parameters.txt are the
sorted parameter names each with a trailing `=` appended (the names are
sorted, though appending `=` does not always preserve byte order of the
written lines). -/
theorem output_files_sorted_nodup (lines : List String) :
    (List.Sorted (· ≤ ·) (uniqueUrls lines) ∧ (uniqueUrls lines).Nodup) ∧
    (List.Sorted (· ≤ ·) (regularUrls lines) ∧ (regularUrls lines).Nodup) ∧
    (∀ ext, List.Sorted (· ≤ ·) (bucketUrls lines ext)
      ∧ (bucketUrls lines ext).Nodup) ∧
    (List.Sorted (· ≤ ·) (processEndpoints lines)
      ∧ (processEndpoints lines).Nodup) ∧
    (List.Sorted (· ≤ ·) (processParameters lines)
      ∧ (processParameters lines).Nodup) ∧
    (parametersFileLines lines).Nodup ∧
    parametersFileLines lines
      = (processParameters lines).map (fun p => p ++ "=") := by
  have hu : List.Sorted (· ≤ ·) (uniqueUrls lines) := pySortedSet_sorted _
  have hun : (uniqueUrls lines).Nodup := pySortedSet_nodup _
  have hp : List.Sorted (· ≤ ·) (processParameters lines) := pySorted_sorted _
  have hpn : (processParameters lines).Nodup :=
    ((pySorted_perm _).nodup_iff).mpr
      (List.Nodup.filter _ (List.nodup_dedup _))
  refine ⟨⟨hu, hun⟩, ⟨hu.filter _, hun.filter _⟩,
    fun ext => ⟨hu.filter _, hun.filter _⟩,
    ⟨pySortedSet_sorted _, pySortedSet_nodup _⟩,
    ⟨hp, hpn⟩, ?_, rfl⟩
  exact hpn.map appendEq_injective

/-! ## Claim C7 -/

/-- C7 fails on the code: the filter drops any line that starts with the
characters `original`, not only a line equal to the column header; the
trimmed, non-empty, non-static URL `originals.example.com/a` is dropped. -/
theorem originals_line_dropped :
    pyStripS "originals.example.com/a" = "originals.example.com/a" ∧
    ("originals.example.com/a" : String) ≠ "" ∧
    is_static_resource "originals.example.com/a" = false ∧
    surviveLine "originals.example.com/a" = false ∧
    uniqueUrls ["originals.example.com/a"] = [] := by decide

/-- C7 (amended): a string is retained by the per-domain line filter exactly
when it is the trim of some response line and is non-empty, does not start
with the characters `original`, and is not a static resource. -/
theorem line_filter_characterisation (lines : List String) (l : String) :
    l ∈ filteredUrls lines ↔
      (∃ raw ∈ lines, pyStripS raw = l) ∧ l ≠ ""
        ∧ List.isPrefixOf "original".data l.data = false
        ∧ is_static_resource l = false :=
  mem_filteredUrls

/-! ## Claim C5 -/

/-- C5 fails on the code: wayback.py's `except` clause catches only
`RequestException`; an `OSError` during directory creation or output writing
propagates out of `collect_wayback_urls` and aborts the whole run (the next
domain is never processed), instead of being logged and skipped. -/
theorem write_failure_aborts_run :
    collectRun (.ok ["http://a.com/x"]) true false = .error .osErr ∧
    waybackProcessAll
      [(.ok ["http://a.com/x"], true, false), (.ok ["http://b.com/y"], true, true)]
      = .error .osErr := ⟨rfl, rfl⟩

/-- C5 (amended): a fetch failure is non-fatal (caught, counted as zero, the
loop continues with the next domain), but a directory-creation or
output-write failure in the URL collector is an uncaught exception that
aborts the run. -/
theorem collector_error_policy :
    (∀ mkdirOk writeOk : Bool,
        collectRun (.error ()) mkdirOk writeOk = .ok 0) ∧
    (∀ (lines : List String) (writeOk : Bool),
        collectRun (.ok lines) false writeOk = .error .osErr) ∧
    (∀ lines : List String,
        collectRun (.ok lines) true false = .error .osErr) ∧
    (∀ (rest : List (Except Unit (List String) × Bool × Bool))
        (mkdirOk writeOk : Bool),
        waybackProcessAll ((.error (), mkdirOk, writeOk) :: rest)
          = (waybackProcessAll rest).map (fun l => 0 :: l)) ∧
    (∀ (lines : List String) (rest : List (Except Unit (List String) × Bool × Bool)),
        waybackProcessAll ((.ok lines, true, false) :: rest) = .error .osErr) := by
  refine ⟨fun mk wr => rfl, fun lines wr => rfl, fun lines => rfl,
    fun rest mk wr => rfl, fun lines rest => rfl⟩

/-! ## Claim C6 -/

/-- C6 fails on the code: a readable input file whose lines are all blank
leaves no valid domain, and all three entry points then exit with status 1,
not 0. -/
theorem readable_empty_file_exits_one :
    mainExitCode 2 (.ok [""]) = 1 ∧ mainExitCode 2 (.ok ["  ", ""]) = 1 := by
  decide

/-- C6 (amended): the exit status is always 0 or 1, and it is 0 exactly when
the argument count is right, the input file is readable, and at least one
non-blank domain line remains (per-domain outcomes do not enter this
condition; endpoint.py and parameter.py catch all per-domain errors, while a
write failure in wayback.py aborts the run abnormally as recorded for C5). -/
theorem exit_code_characterisation (argvLen : Nat)
    (file : Except Unit (List String)) :
    (mainExitCode argvLen file = 0 ∨ mainExitCode argvLen file = 1) ∧
    (mainExitCode argvLen file = 0 ↔
      argvLen = 2 ∧ ∃ lines, file = .ok lines ∧
        ((lines.map pyStripS).filter (fun d => d ≠ "")) ≠ []) := by
  unfold mainExitCode
  by_cases h2 : argvLen ≠ 2
  · rw [if_pos h2]
    refine ⟨Or.inr rfl, ?_, ?_⟩
    · intro h
      exact absurd h one_ne_zero
    · rintro ⟨ha, _⟩
      exact absurd ha h2
  · rw [if_neg h2]
    push_neg at h2
    cases file with
    | error e =>
      refine ⟨Or.inr rfl, ?_, ?_⟩
      · intro h
        exact absurd h one_ne_zero
      · rintro ⟨_, lines, hl, _⟩
        exact Except.noConfusion hl
    | ok lines =>
      dsimp only
      by_cases hd : ((lines.map pyStripS).filter (fun d => d ≠ "")) = []
      · rw [if_pos hd]
        refine ⟨Or.inr rfl, ?_, ?_⟩
        · intro h
          exact absurd h one_ne_zero
        · rintro ⟨_, lines2, hl, hne⟩
          cases Except.ok.inj hl
          exact absurd hd hne
      · rw [if_neg hd]
        exact ⟨Or.inl rfl, fun _ => ⟨h2, lines, rfl, hd⟩, fun _ => rfl⟩

/-! ## Claim C9 -/

/-- C9: rerunning endpoint (resp. parameter) extraction over an unchanged
wayback_urls.txt writes a byte-identical endpoints.txt (resp.
parameters.txt): one run only replaces the derived file with a value
computed from wayback_urls.txt, which it never modifies, so a second run
reproduces the same directory state. -/
theorem extraction_idempotent (d : DomainState) :
    runEndpointExtraction (runEndpointExtraction d) = runEndpointExtraction d ∧
    runParameterExtraction (runParameterExtraction d)
      = runParameterExtraction d := by
  cases d with
  | mk w e p =>
    cases w with
    | none => exact ⟨rfl, rfl⟩
    | some ls => exact ⟨rfl, rfl⟩

/-! ## Claim C10 -/

/-- C10 fails as stated: in `http://x.com/?a=&a=1` the name `a` appears with
an empty value (the chunk `a=` splits into name `a` and empty value), yet
`a` is returned because it also appears with the non-empty value `1`. -/
theorem empty_value_name_still_returned :
    "a=".data ∈ pySplitAll '&' "a=&a=1".data ∧
    splitOnFirst '=' "a=".data = ("a".data, some []) ∧
    extract_parameters "http://x.com/?a=&a=1" = ["a"] := by decide

/-- C10 (amended): query parsing discards each individual pair whose raw
value is empty (or which has no `=`) before the name filters run, so a name
appearing only with empty values is never returned — for
`http://x.com/?a=&b=1` and `http://x.com/?a&b=1` the result is exactly `b` —
but a name appearing with both an empty and a non-empty value is returned;
every pair kept by the query parser has a non-empty raw value. -/
theorem empty_valued_pairs_discarded :
    extract_parameters "http://x.com/?a=&b=1" = ["b"] ∧
    extract_parameters "http://x.com/?a&b=1" = ["b"] ∧
    extract_parameters "http://x.com/?a=&a=1" = ["a"] ∧
    ∀ qs : List Char, (rawQsPairs qs).all (fun pr => !(pr.2.isEmpty)) = true := by
  refine ⟨by decide, by decide, by decide, ?_⟩
  intro qs
  rw [List.all_eq_true]
  intro pr hpr
  obtain ⟨nv, hnv, heq⟩ := List.mem_filterMap.mp hpr
  by_cases h1 : nv = []
  · rw [if_pos h1] at heq
    exact Option.noConfusion heq
  · rw [if_neg h1] at heq
    cases hsp : splitOnFirst '=' nv with
    | mk n vOpt =>
      rw [hsp] at heq
      cases vOpt with
      | none => exact Option.noConfusion heq
      | some v =>
        have heq2 : (if v = [] then none else some (n, v)) = some pr := heq
        by_cases h2 : v = []
        · rw [if_pos h2] at heq2
          exact Option.noConfusion heq2
        · rw [if_neg h2] at heq2
          have hpr2 := Option.some.inj heq2
          rw [← hpr2]
          simp [List.isEmpty_iff, h2]

theorem urlsplit_http_shape (h pc qt ft : List Char)
    (hh : h.all hostCharOk = true)
    (hp : pc = [] ∨ pc.head? = some '/')
    (hpc : pc.all pathCharOk = true)
    (hqt : qt = [] ∨ ∃ s, qt = '?' :: s ∧ s.all queryCharOk = true)
    (hft : ft = [] ∨ ∃ s, ft = '#' :: s ∧ s.all fragCharOk = true) :
    urlsplit ("http://".data ++ (h ++ (pc ++ (qt ++ ft))))
      = .ok ⟨"http".data, h, pc, qt.tail, ft.tail⟩ := by
  have hhc := List.all_eq_true.mp hh
  have hpcc := List.all_eq_true.mp hpc
  -- characters of the suffix after the authority all pass the unsafe filter
  have hclean : ∀ x ∈ h ++ (pc ++ (qt ++ ft)), fragCharOk x = true := by
    intro x hx
    rcases List.mem_append.mp hx with hx | hx
    · exact hostCharOk_frag x (hhc x hx)
    rcases List.mem_append.mp hx with hx | hx
    · exact pathCharOk_frag x (hpcc x hx)
    rcases List.mem_append.mp hx with hx | hx
    · rcases hqt with hqe | ⟨s, rfl, hs⟩
      · rw [hqe] at hx
        exact absurd hx (List.not_mem_nil x)
      · rcases List.mem_cons.mp hx with rfl | hx
        · decide
        · exact queryCharOk_frag x (List.all_eq_true.mp hs x hx)
    · rcases hft with hfe | ⟨s, rfl, hs⟩
      · rw [hfe] at hx
        exact absurd hx (List.not_mem_nil x)
      · rcases List.mem_cons.mp hx with rfl | hx
        · decide
        · exact List.all_eq_true.mp hs x hx
  -- no '#' in the path, no '?' either, no ';'
  have hpc_props := fun x hx => pathCharOk_props x (hpcc x hx)
  -- step 1: the C0/space strip is the identity (the URL starts with 'h')
  have hdrop :
      List.dropWhile (fun c => decide (c.toNat ≤ 32))
        ("http://".data ++ (h ++ (pc ++ (qt ++ ft))))
      = "http://".data ++ (h ++ (pc ++ (qt ++ ft))) := by
    show List.dropWhile _ ('h' :: ("ttp://".data ++ (h ++ (pc ++ (qt ++ ft))))) = _
    rw [List.dropWhile_cons, if_neg (by decide)]
    rfl
  -- step 2: the tab/CR/LF filter is the identity
  have hfil :
      List.filter (fun c => !(c == '\t' || c == '\r' || c == '\n'))
        ("http://".data ++ (h ++ (pc ++ (qt ++ ft))))
      = "http://".data ++ (h ++ (pc ++ (qt ++ ft))) := by
    rw [show (fun c : Char => !(c == '\t' || c == '\r' || c == '\n')) = fragCharOk
      from rfl]
    rw [List.filter_append, List.filter_eq_self.mpr hclean,
      show List.filter fragCharOk "http://".data = "http://".data from by decide]
  -- step 3: the scheme splits at the first colon
  have hsch :
      splitOnFirst ':' ("http://".data ++ (h ++ (pc ++ (qt ++ ft))))
        = ("http".data, some ('/' :: '/' :: (h ++ (pc ++ (qt ++ ft))))) := by
    show splitOnFirst ':'
      ("http".data ++ ':' :: ('/' :: '/' :: (h ++ (pc ++ (qt ++ ft))))) = _
    exact splitOnFirst_append ':' "http".data _ (by decide)
  -- step 4: netloc is the host
  have htw :
      (h ++ (pc ++ (qt ++ ft))).takeWhile (fun c => !(isNetlocEnd c)) = h := by
    rw [takeWhile_append_all _ _ _ (fun x hx => hostCharOk_netloc x (hhc x hx))]
    have : (pc ++ (qt ++ ft)).takeWhile (fun c => !(isNetlocEnd c)) = [] := by
      rcases hp with rfl | hph
      · rw [List.nil_append]
        rcases hqt with rfl | ⟨s, rfl, _⟩
        · rw [List.nil_append]
          rcases hft with rfl | ⟨s, rfl, _⟩
          · rfl
          · rw [List.takeWhile_cons, if_neg (by decide)]
        · rw [List.cons_append, List.takeWhile_cons, if_neg (by decide)]
      · cases pc with
        | nil => exact absurd hph (by simp)
        | cons c0 pc2 =>
          have : c0 = '/' := by
            have := hph
            simp only [List.head?] at this
            exact (Option.some.inj this)
          subst this
          rw [List.cons_append, List.takeWhile_cons, if_neg (by decide)]
    rw [this, List.append_nil]
  have hdw :
      (h ++ (pc ++ (qt ++ ft))).dropWhile (fun c => !(isNetlocEnd c))
        = pc ++ (qt ++ ft) := by
    rw [dropWhile_append_all _ _ _ (fun x hx => hostCharOk_netloc x (hhc x hx))]
    rcases hp with rfl | hph
    · rw [List.nil_append]
      rcases hqt with rfl | ⟨s, rfl, _⟩
      · rw [List.nil_append]
        rcases hft with rfl | ⟨s, rfl, _⟩
        · rfl
        · rw [List.dropWhile_cons, if_neg (by decide)]
      · rw [List.cons_append, List.dropWhile_cons, if_neg (by decide)]
    · cases pc with
      | nil => exact absurd hph (by simp)
      | cons c0 pc2 =>
        have : c0 = '/' := by
          have := hph
          simp only [List.head?] at this
          exact (Option.some.inj this)
        subst this
        rw [List.cons_append, List.dropWhile_cons, if_neg (by decide)]
  -- no '#' in path or query part, no '?' in path
  have hnoHash : '#' ∉ pc ++ qt := by
    intro hx
    rcases List.mem_append.mp hx with hx | hx
    · exact (hpc_props _ hx).2.1 rfl
    · rcases hqt with rfl | ⟨s, rfl, hs⟩
      · exact absurd hx (List.not_mem_nil _)
      · rcases List.mem_cons.mp hx with he | hx
        · exact absurd he (by decide)
        · exact queryCharOk_props _ (List.all_eq_true.mp hs _ hx) rfl
  have hnoQm : '?' ∉ pc := fun hx => (hpc_props _ hx).1 rfl
  have hfragPair :
      splitOnFirst '#' (pc ++ (qt ++ ft)) = (pc ++ qt, ft.tail?) := by
    rcases hft with rfl | ⟨s, rfl, _⟩
    · rw [List.append_nil, splitOnFirst_not_mem _ _ hnoHash]
      rfl
    · rw [← List.append_assoc, splitOnFirst_append _ _ _ hnoHash]
      rfl
  have hqPair : splitOnFirst '?' (pc ++ qt) = (pc, qt.tail?) := by
    rcases hqt with rfl | ⟨s, rfl, _⟩
    · rw [List.append_nil, splitOnFirst_not_mem _ _ hnoQm]
      rfl
    · exact splitOnFirst_append '?' pc s hnoQm
  have htails : ∀ l : List Char, (l.tail?).getD [] = l.tail := by
    intro l
    cases l <;> rfl
  have hbr : ¬ (('[' ∈ h ∧ ']' ∉ h) ∨ (']' ∈ h ∧ '[' ∉ h)) := by
    rintro (⟨hm, _⟩ | ⟨hm, _⟩)
    · exact (hostCharOk_props _ (hhc _ hm)).1 rfl
    · exact (hostCharOk_props _ (hhc _ hm)).2 rfl
  have hnetc : checknetlocFails h = false := by
    rw [checknetlocFails]
    by_cases hcase : (h.isEmpty || h.all (fun c => decide (c.toNat ≤ 127))) = true
    · rw [if_pos hcase]
    · rw [if_neg hcase, List.any_eq_false]
      intro c hc
      rw [hostCharOk_nfkc c (hhc c (List.mem_filter.mp hc).1)]
      exact Bool.false_ne_true
  simp only [urlsplit]
  rw [hdrop, hfil, hsch]
  dsimp only
  rw [if_pos (show "http".data ≠ [] ∧ (("http".data).headD ' ').isAlpha = true
      ∧ ("http".data).all isSchemeChar = true from by decide)]
  dsimp only
  rw [show List.take 2 ('/' :: '/' :: (h ++ (pc ++ (qt ++ ft)))) = ['/', '/']
    from rfl]
  rw [if_pos rfl]
  rw [show List.drop 2 ('/' :: '/' :: (h ++ (pc ++ (qt ++ ft))))
      = h ++ (pc ++ (qt ++ ft)) from rfl]
  dsimp only
  rw [htw, hdw]
  rw [if_neg hbr]
  rw [hfragPair]
  dsimp only
  rw [hqPair]
  dsimp only
  rw [htails qt, htails ft,
    show ("http".data).map Char.toLower = "http".data from by decide]
  rw [hnetc, if_neg Bool.false_ne_true]

theorem urlparse_http_shape (h pc qt ft : List Char)
    (hh : h.all hostCharOk = true)
    (hp : pc = [] ∨ pc.head? = some '/')
    (hpc : pc.all pathCharOk = true)
    (hqt : qt = [] ∨ ∃ s, qt = '?' :: s ∧ s.all queryCharOk = true)
    (hft : ft = [] ∨ ∃ s, ft = '#' :: s ∧ s.all fragCharOk = true) :
    urlparse ("http://".data ++ (h ++ (pc ++ (qt ++ ft))))
      = .ok ⟨"http".data, h, pc, [], qt.tail, ft.tail⟩ := by
  have hsemi : ¬ (';' ∈ pc) := fun hx =>
    (pathCharOk_props _ (List.all_eq_true.mp hpc _ hx)).2.2 rfl
  rw [urlparse, urlsplit_http_shape h pc qt ft hh hp hpc hqt hft]
  dsimp only
  rw [if_neg hsemi]

theorem mk_endpoint_eq_spec (host p : String) :
    String.mk (host.data
        ++ (match (pySplitAll '/' p.data).filter (fun s => s ≠ []) with
            | p1 :: _ => '/' :: (p1 ++ ['/'])
            | [] => ['/'])) = specEndpoint host p := by
  rw [specEndpoint]
  cases hsp : (pySplitAll '/' p.data).filter (fun s => s ≠ []) with
  | nil =>
    apply String.ext
    rw [String.data_append]
  | cons s rest =>
    apply String.ext
    rw [String.data_append, String.data_append, String.data_append]
    rw [show ("/" : String).data = ['/'] from rfl]
    simp [List.append_assoc]

/-! ## Claim C8 -/

/-- C8: for a URL with scheme `http` and a host (no netloc delimiter or
bracket in the host; no query/fragment delimiter in the path; no `#` in the
query; no tab/CR/LF anywhere), `extract_endpoint` returns the host followed
by the first non-empty path segment and a trailing slash, or the host with a
lone slash when the path has no non-empty segment.  Query, params, and
fragment never contribute. -/
theorem extract_endpoint_host_first_segment
    (host p : String) (q f : Option String)
    (hh : host.data.all hostCharOk = true)
    (hp : p.data = [] ∨ p.data.head? = some '/')
    (hpc : p.data.all pathCharOk = true)
    (hq : ((q.getD "").data).all queryCharOk = true)
    (hf : ((f.getD "").data).all fragCharOk = true) :
    extract_endpoint (urlOf host p q f) = some (specEndpoint host p) := by
  cases q with
  | none =>
    cases f with
    | none =>
      have hdata : (urlOf host p none none).data
          = "http://".data ++ (host.data ++ (p.data ++ ([] ++ []))) := by
        simp [urlOf, String.data_append, List.append_assoc]
      rw [extract_endpoint, hdata,
        urlparse_http_shape host.data p.data [] [] hh hp hpc (Or.inl rfl)
          (Or.inl rfl)]
      exact congrArg some (mk_endpoint_eq_spec host p)
    | some fs =>
      have hdata : (urlOf host p none (some fs)).data
          = "http://".data
              ++ (host.data ++ (p.data ++ ([] ++ ('#' :: fs.data)))) := by
        simp [urlOf, String.data_append, List.append_assoc]
      rw [extract_endpoint, hdata,
        urlparse_http_shape host.data p.data [] ('#' :: fs.data) hh hp hpc
          (Or.inl rfl) (Or.inr ⟨fs.data, rfl, hf⟩)]
      exact congrArg some (mk_endpoint_eq_spec host p)
  | some qs =>
    cases f with
    | none =>
      have hdata : (urlOf host p (some qs) none).data
          = "http://".data
              ++ (host.data ++ (p.data ++ (('?' :: qs.data) ++ []))) := by
        simp [urlOf, String.data_append, List.append_assoc]
      rw [extract_endpoint, hdata,
        urlparse_http_shape host.data p.data ('?' :: qs.data) [] hh hp hpc
          (Or.inr ⟨qs.data, rfl, hq⟩) (Or.inl rfl)]
      exact congrArg some (mk_endpoint_eq_spec host p)
    | some fs =>
      have hdata : (urlOf host p (some qs) (some fs)).data
          = "http://".data
              ++ (host.data
                ++ (p.data ++ (('?' :: qs.data) ++ ('#' :: fs.data)))) := by
        simp [urlOf, String.data_append, List.append_assoc]
      rw [extract_endpoint, hdata,
        urlparse_http_shape host.data p.data ('?' :: qs.data) ('#' :: fs.data)
          hh hp hpc (Or.inr ⟨qs.data, rfl, hq⟩) (Or.inr ⟨fs.data, rfl, hf⟩)]
      exact congrArg some (mk_endpoint_eq_spec host p)

/-- C8 witness: the three examples of the claim, obtained from the theorem
at concrete inputs. -/
theorem extract_endpoint_host_first_segment_witness :
    (("x.com" : String).data.all hostCharOk = true ∧
     (("/a/b/c" : String).data = [] ∨ ("/a/b/c" : String).data.head? = some '/') ∧
     ("/a/b/c" : String).data.all pathCharOk = true ∧
     ((some ("q=1" : String)).getD "").data.all queryCharOk = true ∧
     ((none : Option String).getD "").data.all fragCharOk = true) ∧
    extract_endpoint "http://x.com/a/b/c?q=1" = some "x.com/a/" ∧
    extract_endpoint "http://x.com/" = some "x.com/" ∧
    extract_endpoint "http://x.com" = some "x.com/" := by
  refine ⟨⟨by decide, by decide, by decide, by decide, by decide⟩, ?_, ?_, ?_⟩
  · have h1 := extract_endpoint_host_first_segment "x.com" "/a/b/c"
      (some "q=1") none (by decide) (by decide) (by decide) (by decide)
      (by decide)
    rw [show urlOf "x.com" "/a/b/c" (some "q=1") none = "http://x.com/a/b/c?q=1"
        from by decide] at h1
    rw [show specEndpoint "x.com" "/a/b/c" = "x.com/a/" from by decide] at h1
    exact h1
  · have h1 := extract_endpoint_host_first_segment "x.com" "/" none none
      (by decide) (by decide) (by decide) (by decide) (by decide)
    rw [show urlOf "x.com" "/" none none = "http://x.com/" from by decide] at h1
    rw [show specEndpoint "x.com" "/" = "x.com/" from by decide] at h1
    exact h1
  · have h1 := extract_endpoint_host_first_segment "x.com" "" none none
      (by decide) (by decide) (by decide) (by decide) (by decide)
    rw [show urlOf "x.com" "" none none = "http://x.com" from by decide] at h1
    rw [show specEndpoint "x.com" "" = "x.com/" from by decide] at h1
    exact h1

end Recon
